import Mathlib

/-!
Verification development for the Price Bandit variant-pricing pipeline
(backend/scripts/Price_Bandit.py).

The Python source is shallowly embedded below.  Python numbers that flow
through the pipeline originate from JSON text, so a float is modelled by
the decimal literal it was parsed from (a scaled decimal: mantissa and a
base-ten fractional exponent).  Fallible Python code (exceptions) is
modelled with Except.  Network calls are modelled by explicit response
oracles and effect traces.
-/

/-- A fixed-point decimal value: mantissa divided by ten to the exp.
Models the decimal literal a Python float or Decimal was created from. -/
structure Dec where
  mantissa : Int
  exp : Nat
  deriving DecidableEq, Repr

/-- Little-endian decimal digits, structurally recursive on a fuel
argument so the kernel can evaluate it (the fuel never runs out when it
starts at the number itself). -/
def digitsRevAux : Nat → Nat → List Char
  | _, 0 => []
  | n, fuel + 1 =>
    if n = 0 then [] else Nat.digitChar (n % 10) :: digitsRevAux (n / 10) fuel

/-- Little-endian decimal digits of a natural number (empty for zero). -/
def digitsRev (n : Nat) : List Char :=
  digitsRevAux n n

/-- Decimal rendering of a natural number, as Python str() renders it. -/
def natDecRepr (n : Nat) : String :=
  if n = 0 then "0" else String.mk (digitsRev n).reverse

/-- Decimal rendering of an integer, as Python str() renders it. -/
def intRepr (n : Int) : String :=
  (if n < 0 then "-" else "") ++ natDecRepr n.natAbs

/-- Render a number of cents as Python renders a two-fraction-digit
Decimal: integer part, a point, then exactly two digits. -/
def renderCents (n : Int) : String :=
  (if n < 0 then "-" else "") ++ natDecRepr (n.natAbs / 100) ++ "." ++
    String.mk [Nat.digitChar (n.natAbs / 10 % 10), Nat.digitChar (n.natAbs % 10)]

/-- Magnitude part of rounding a / 10 ^ e to hundredths, half up
(the translation of Decimal.quantize with exponent -2 and ROUND_HALF_UP). -/
def halfUpCentsMag (a : Nat) (e : Nat) : Nat :=
  if e ≤ 2 then a * 10 ^ (2 - e)
  else a / 10 ^ (e - 2) + (if 10 ^ (e - 2) ≤ 2 * (a % 10 ^ (e - 2)) then 1 else 0)

/-- Cents produced by Decimal.quantize(Decimal(0.01), ROUND_HALF_UP):
ties round away from zero. -/
def halfUpCents (d : Dec) : Int :=
  (if d.mantissa < 0 then -1 else 1) * (halfUpCentsMag d.mantissa.natAbs d.exp : Int)

/-- Modelled from the spec words: round half-up to exactly two
fractional digits, that is the floor of one hundred times the magnitude
plus one half, with the sign restored (ties away from zero). -/
def specCents (d : Dec) : Int :=
  (if d.mantissa < 0 then -1 else 1) *
    (((200 * d.mantissa.natAbs + 10 ^ d.exp) / (2 * 10 ^ d.exp) : Nat) : Int)

/-- Remove trailing zeros from the fractional part of a scaled decimal. -/
def stripFracZeros (m : Int) (e : Nat) : Int × Nat :=
  match e with
  | 0 => (m, 0)
  | Nat.succ e' => if m % 10 = 0 then stripFracZeros (m / 10) e' else (m, Nat.succ e')

/-- Python repr of a float that originated from a finite decimal JSON
literal: minimal digits, always at least one fractional digit.
Exponent notation for very large or very small magnitudes is not
modelled; the claims are settled away from that corner. -/
def floatRepr (d : Dec) : String :=
  let (m, e) := stripFracZeros d.mantissa d.exp
  if e = 0 then intRepr m ++ ".0"
  else
    let a := m.natAbs
    let ip := a / 10 ^ e
    let fp := a % 10 ^ e
    let fpDigits := (digitsRev fp).reverse
    let fpStr := String.mk (List.replicate (e - fpDigits.length) '0' ++ fpDigits)
    (if m < 0 then "-" else "") ++ natDecRepr ip ++ "." ++ fpStr

/-- A JSON value as decoded by Python json.loads: null, bool, int,
float (kept as the decimal literal it came from), string, array,
object (association list; json.loads never yields duplicate keys). -/
inductive JVal where
  | null : JVal
  | bool : Bool → JVal
  | int : Int → JVal
  | float : Dec → JVal
  | str : String → JVal
  | arr : List JVal → JVal
  | obj : List (String × JVal) → JVal

mutual

/-- Python repr() of a json-decoded value (strings are quoted; string
escape corners are not modelled). -/
def pyRepr : JVal → String
  | .null => "None"
  | .bool true => "True"
  | .bool false => "False"
  | .int n => intRepr n
  | .float d => floatRepr d
  | .str s => "'" ++ s ++ "'"
  | .arr xs => "[" ++ pyReprList xs ++ "]"
  | .obj kvs => "\x7b" ++ pyReprObj kvs ++ "\x7d"

def pyReprList : List JVal → String
  | [] => ""
  | [x] => pyRepr x
  | x :: y :: xs => pyRepr x ++ ", " ++ pyReprList (y :: xs)

def pyReprObj : List (String × JVal) → String
  | [] => ""
  | [(k, v)] => "'" ++ k ++ "': " ++ pyRepr v
  | (k, v) :: y :: xs => "'" ++ k ++ "': " ++ pyRepr v ++ ", " ++ pyReprObj (y :: xs)

end

/-- Python str() of a json-decoded value: like repr but a string is
itself. -/
def pyStr : JVal → String
  | .str s => s
  | v => pyRepr v

/-- Python str.strip(): drop leading and trailing whitespace. -/
def pyStrip (s : String) : String :=
  String.mk (((s.data.dropWhile Char.isWhitespace).reverse.dropWhile Char.isWhitespace).reverse)

/-- Python str.lower() (ASCII case folding suffices here). -/
def pyLower (s : String) : String :=
  String.mk (s.data.map Char.toLower)

/-- Python str.split(sep) on a single-character separator: splitting the
empty string yields one empty field. -/
def pySplit (s : String) (sep : Char) : List String :=
  (s.data.foldr
    (fun c acc =>
      match acc with
      | [] => [[c]]
      | g :: gs => if c = sep then [] :: g :: gs else (c :: g) :: gs)
    [[]]).map String.mk

/-- Python str.split(sep, 1) on a single-character separator: the text
before the first separator and everything after it. -/
def pySplitFirst (s : String) (sep : Char) : String × String :=
  (String.mk (s.data.takeWhile (fun c => c ≠ sep)),
   String.mk ((s.data.dropWhile (fun c => c ≠ sep)).drop 1))

/-- Read an optional exponent suffix of a decimal literal and combine it
with the mantissa and the count of fractional digits read so far. -/
def finishDecLit (sg m : Int) (frac : Nat) (rest : List Char) : Option Dec :=
  match rest with
  | [] => some ⟨sg * m, frac⟩
  | 'e' :: r | 'E' :: r =>
    let (esg, r') := match r with
      | '+' :: r' => ((1 : Int), r')
      | '-' :: r' => ((-1 : Int), r')
      | _ => ((1 : Int), r)
    if r' ≠ [] ∧ r'.all Char.isDigit then
      let ex : Int := esg * (r'.foldl (fun a c => 10 * a + (c.toNat - '0'.toNat)) 0 : Nat)
      let e' : Int := (frac : Int) - ex
      if 0 ≤ e' then some ⟨sg * m, e'.toNat⟩
      else some ⟨sg * m * 10 ^ (-e').toNat, 0⟩
    else none
  | _ => none

/-- Parse a finite decimal literal the way Python float() and Decimal()
accept them: optional surrounding whitespace, optional sign, digits with
an optional point, optional exponent.  Non-finite spellings (nan, inf)
and digit underscores are not modelled; the claims are settled away from
those corners. -/
def parseDecLit (s : String) : Option Dec :=
  let t := (pyStrip s).data
  let (sg, t1) : Int × List Char := match t with
    | '+' :: r => (1, r)
    | '-' :: r => (-1, r)
    | _ => (1, t)
  let ip := t1.takeWhile Char.isDigit
  let t2 := t1.dropWhile Char.isDigit
  let mOf : List Char → Nat := fun ds => ds.foldl (fun a c => 10 * a + (c.toNat - '0'.toNat)) 0
  match t2 with
  | '.' :: t3 =>
    let fp := t3.takeWhile Char.isDigit
    let t4 := t3.dropWhile Char.isDigit
    if ip = [] ∧ fp = [] then none
    else finishDecLit sg (mOf (ip ++ fp)) fp.length t4
  | _ =>
    if ip = [] then none else finishDecLit sg (mOf ip) 0 t2

deriving instance DecidableEq for Except

/-- The Python exceptions this model distinguishes. -/
inductive PyErr where
  | invalidOperation : PyErr
  | httpError : PyErr
  deriving DecidableEq, Repr

/-- format_price from Price_Bandit.py: Decimal(str(price)) quantized to
two fraction digits with ROUND_HALF_UP, rendered as a string.  For an
int or a float input, str() prints exactly the decimal value, so the
Decimal conversion recovers the value itself; for any other input,
Decimal(str(price)) raises decimal.InvalidOperation unless str(price) is
a decimal literal.  The except clause of the source catches only
ValueError and TypeError, neither of which arises here, so the
InvalidOperation propagates to the caller. -/
def format_price (price : JVal) : Except PyErr String :=
  match price with
  | .int n => .ok (renderCents (halfUpCents ⟨n, 0⟩))
  | .float d => .ok (renderCents (halfUpCents d))
  | v =>
    match parseDecLit (pyStr v) with
    | some d => .ok (renderCents (halfUpCents d))
    | none => .error .invalidOperation

/-- A pricing band as validated by the Band Parser: the values stored
under the min, max and price keys (the PriceBand data model; extra
object keys play no role in the pipeline and are not carried). -/
structure Band where
  bmin : JVal
  bmax : JVal
  price : JVal

/-- band_label from Price_Bandit.py: the f-string of min, a dash, max. -/
def band_label (b : Band) : String :=
  pyStr b.bmin ++ "-" ++ pyStr b.bmax

/-- Python int() on a string: optional surrounding whitespace, optional
sign, then decimal digits (digit underscores are not modelled). -/
def pyInt (s : String) : Option Int :=
  let t := (pyStrip s).data
  let (sg, ds) : Int × List Char := match t with
    | '+' :: r => (1, r)
    | '-' :: r => (-1, r)
    | _ => (1, t)
  if ds ≠ [] ∧ ds.all Char.isDigit then
    some (sg * (ds.foldl (fun a c => 10 * a + (c.toNat - '0'.toNat)) 0 : Nat))
  else none

/-- The sort key of collect_unique_band_labels: int() of the text before
the first dash of the label. -/
def intBeforeDash (s : String) : Option Int :=
  pyInt (String.mk (s.data.takeWhile (fun c => c ≠ '-')))

/-- Order on labels by their numeric key (total preorder on strings). -/
def numLe (a b : String) : Prop :=
  (intBeforeDash a).getD 0 ≤ (intBeforeDash b).getD 0

instance : DecidableRel numLe := fun a b =>
  inferInstanceAs (Decidable ((intBeforeDash a).getD 0 ≤ (intBeforeDash b).getD 0))

instance : IsTotal String numLe := ⟨fun _ _ => Int.le_total _ _⟩

instance : IsTrans String numLe := ⟨fun _ _ _ hab hbc => Int.le_trans hab hbc⟩

/-- Lexicographic order on strings by code point, as Python compares
strings. -/
def lexLe (a b : String) : Prop := a.data ≤ b.data

instance : DecidableRel lexLe := fun a b =>
  inferInstanceAs (Decidable (a.data ≤ b.data))

instance : IsTotal String lexLe := ⟨fun a b => le_total a.data b.data⟩

instance : IsTrans String lexLe := ⟨fun _ _ _ hab hbc => le_trans hab hbc⟩

/-- collect_unique_band_labels from Price_Bandit.py: the deduplicated
labels of both band lists, sorted by the integer before the dash; if
computing any key raises, the whole sorted call raises and the fallback
sorts the same label set lexicographically.  A Python set's iteration
order is modelled by first-occurrence order; the sort is stable, so only
the relative order of distinct labels with equal keys depends on it, and
no theorem below depends on that order. -/
def collect_unique_band_labels (trade_bands endc_bands : List Band) : List String :=
  let labels := ((trade_bands ++ endc_bands).map band_label).dedup
  if labels.all (fun s => (intBeforeDash s).isSome) then
    List.insertionSort numLe labels
  else
    List.insertionSort lexLe labels

/-- A candidate variant row as synthesized by build_variant_for_band.
inventory_management is always None in the source and is omitted. -/
structure Variant where
  price : String
  inventory_policy : String
  requires_shipping : Bool
  weight : Int
  weight_unit : String
  sku : String
  taxable : Bool
  option1 : String
  option2 : String
  option3 : Option String
  deriving DecidableEq, Repr

/-- Python truthiness of the optional colour argument: None and the
empty string are falsy. -/
def colourTruthy : Option String → Bool
  | none => false
  | some c => c ≠ ""

/-- build_variant_for_band from Price_Bandit.py.  The price field is
format_price of the band's price, evaluated while the variant dict is
constructed; its decimal.InvalidOperation raise is reachable here (a
non-numeric string price such as abc survives parse_bands' non-fatal
coercion and reaches this call from process_product), is caught nowhere
in the synthesizer, and is modelled by the Except error. -/
def build_variant_for_band (label : String) (band : Band) (customer_type : String)
    (sku : String) (unit_weight : Int) (colour : Option String) : Except PyErr Variant :=
  match format_price band.price with
  | .error e => .error e
  | .ok priceStr =>
    if colourTruthy colour then
      .ok { price := priceStr, inventory_policy := "continue", requires_shipping := true,
            weight := unit_weight, weight_unit := "g", sku := sku, taxable := true,
            option1 := colour.getD "", option2 := label, option3 := some customer_type }
    else
      .ok { price := priceStr, inventory_policy := "continue", requires_shipping := true,
            weight := unit_weight, weight_unit := "g", sku := sku, taxable := true,
            option1 := label, option2 := customer_type, option3 := none }

/-- The per-colour SKU of build_variants: the base SKU with a slash and
the colour code appended when the code is a truthy (non-empty) string.
The colour_codes association list carries the Python dict's entries in
assignment order, so a duplicate colour's last entry wins, exactly as
dict assignment overwrites; the lookup therefore takes the last match. -/
def colourSku (sku : String) (colour_codes : List (String × String)) (colour : String) : String :=
  let colour_code := ((colour_codes.reverse.find? (fun kv => kv.1 = colour)).map Prod.snd).getD ""
  if colour_code ≠ "" then sku ++ "/" ++ colour_code else sku

/-- Sequential concatenation of two fallible variant-list computations:
the left one runs first, so its exception wins, as in the source's
iteration order. -/
def appendE (a b : Except PyErr (List Variant)) : Except PyErr (List Variant) :=
  match a with
  | .error e => .error e
  | .ok xs =>
    match b with
    | .error e => .error e
    | .ok ys => .ok (xs ++ ys)

/-- Fallible flat map in iteration order: the first element whose
computation raises aborts the whole loop, as a Python for-loop does. -/
def flatMapE {α : Type} (f : α → Except PyErr (List Variant)) : List α → Except PyErr (List Variant)
  | [] => .ok []
  | x :: xs => appendE (f x) (flatMapE f xs)

/-- One customer type's contribution for one label: the variant built
from the first band carrying the label, when there is one. -/
def optVariant (bands : List Band) (label customer_type sku : String) (unit_weight : Int)
    (colour : Option String) : Except PyErr (List Variant) :=
  match bands.find? (fun b => band_label b = label) with
  | some b =>
    match build_variant_for_band label b customer_type sku unit_weight colour with
    | .error e => .error e
    | .ok v => .ok [v]
  | none => .ok []

/-- build_variants from Price_Bandit.py.  colours is None or a list in
the source; None is modelled as the empty list, which the emptiness
test treats identically.  The loops append per colour, then per label,
Trade before End Customer; a format_price raise inside any variant
construction propagates out of the whole function (Except error). -/
def build_variants (trade_bands endc_bands : List Band) (sku : String) (unit_weight : Int)
    (colours : List String) (colour_codes : List (String × String)) :
    Except PyErr (List Variant) :=
  let labels := collect_unique_band_labels trade_bands endc_bands
  if colours ≠ [] then
    flatMapE (fun colour =>
      let variant_sku := colourSku sku colour_codes colour
      flatMapE (fun label =>
        appendE (optVariant trade_bands label "Trade" variant_sku unit_weight (some colour))
          (optVariant endc_bands label "End Customer" variant_sku unit_weight (some colour)))
        labels)
      colours
  else
    flatMapE (fun label =>
      appendE (optVariant trade_bands label "Trade" sku unit_weight none)
        (optVariant endc_bands label "End Customer" sku unit_weight none))
      labels

/-- The option tuple a synthesized or confirmed variant carries: two
components for the quantity-and-customer-type shape, three when a colour
option is present. -/
inductive VTuple where
  | two : String → String → VTuple
  | three : String → String → String → VTuple
  deriving DecidableEq, Repr

/-- The option tuple of a candidate variant. -/
def tupleOfVariant (v : Variant) : VTuple :=
  match v.option3 with
  | some ct => .three v.option1 v.option2 ct
  | none => .two v.option1 v.option2

/-- The option tuples of a candidate list, in emission order. -/
def variantTuples (vs : List Variant) : List VTuple :=
  vs.map tupleOfVariant

/-- A variant as returned by the platform after the create/update call:
the fields enrich_bands_with_variant_ids reads through dict get, each
possibly absent. -/
structure UVariant where
  id : Option Int
  option1 : Option String
  option2 : Option String
  option3 : Option String
  deriving DecidableEq, Repr

/-- An enriched band: the original band with the matched confirmed
variant id injected and the price reformatted to a two-decimal string. -/
structure EBand where
  bmin : JVal
  bmax : JVal
  price : String
  id : Int

/-- The label of an enriched band, recomputed from its min and max
(the enrichment copies them from the source band unchanged). -/
def ebandLabel (e : EBand) : String :=
  pyStr e.bmin ++ "-" ++ pyStr e.bmax

/-- The variant lookup of enrich_bands_with_variant_ids: with a truthy
colour, match the full 3-tuple; otherwise first try the colourless
shape on option1 and option2, then fall back to option2 and option3,
taking the first match regardless of its colour (the degraded match the
source logs). -/
def enrichMatch (updated : List UVariant) (label customer_type : String)
    (colour : Option String) : Option UVariant :=
  if colourTruthy colour then
    updated.find? (fun v =>
      v.option1 = colour ∧ v.option2 = some label ∧ v.option3 = some customer_type)
  else
    match updated.find? (fun v => v.option1 = some label ∧ v.option2 = some customer_type) with
    | some v => some v
    | none => updated.find? (fun v => v.option2 = some label ∧ v.option3 = some customer_type)

/-- enrich_bands_with_variant_ids from Price_Bandit.py.  A band whose
match has a truthy id is kept with that id and its price formatted for
storage; format_price may raise decimal.InvalidOperation on a
non-numeric stored price, which the source does not catch, discarding
the whole enriched list, modelled by the Except error. -/
def enrich_bands_with_variant_ids (bands : List Band) (updated : List UVariant)
    (customer_type : String) (colour : Option String) : Except PyErr (List EBand) :=
  match bands with
  | [] => .ok []
  | b :: rest =>
    match enrichMatch updated (band_label b) customer_type colour with
    | some v =>
      match v.id with
      | some i =>
        if i ≠ 0 then
          match format_price b.price with
          | .error e => .error e
          | .ok p =>
            match enrich_bands_with_variant_ids rest updated customer_type colour with
            | .error e => .error e
            | .ok tail => .ok ({ bmin := b.bmin, bmax := b.bmax, price := p, id := i } :: tail)
        else enrich_bands_with_variant_ids rest updated customer_type colour
      | none => enrich_bands_with_variant_ids rest updated customer_type colour
    | none => enrich_bands_with_variant_ids rest updated customer_type colour

/-- Lookup in a json object, first match (json.loads yields unique
keys). -/
def jLookup (kvs : List (String × JVal)) (k : String) : Option JVal :=
  (kvs.find? (fun kv => kv.1 = k)).map Prod.snd

/-- validate_band_structure from Price_Bandit.py: a mapping containing
the keys min, max and price. -/
def validate_band_structure : JVal → Bool
  | .obj kvs => (jLookup kvs "min").isSome && (jLookup kvs "max").isSome &&
      (jLookup kvs "price").isSome
  | _ => false

/-- The price coercion of parse_bands: a string price becomes the float
it parses to; a failing conversion keeps the original value. -/
def coercePrice : JVal → JVal
  | .str s =>
    match parseDecLit s with
    | some d => .float d
    | none => .str s
  | p => p

/-- Projection of a conforming band object onto the PriceBand data
model, with the string-price coercion applied (guarded by
validate_band_structure, so the lookups succeed). -/
def coerceBandObj : JVal → Band
  | .obj kvs =>
    { bmin := (jLookup kvs "min").getD .null,
      bmax := (jLookup kvs "max").getD .null,
      price := coercePrice ((jLookup kvs "price").getD .null) }
  | _ => ⟨.null, .null, .null⟩

/-- parse_bands from Price_Bandit.py, taking the result of json.loads on
the raw metafield text (none models a decode failure, including the
TypeError of loads on a missing value).  A non-list decode or any
non-conforming element empties the whole list; otherwise every element
is kept, string prices coerced to floats. -/
def parse_bands : Option JVal → List Band
  | none => []
  | some (.arr xs) =>
    if xs.all validate_band_structure then xs.map coerceBandObj else []
  | some _ => []

/-- An HTTP response from the platform, carrying only what the embedded
call sites read: the status code and, for the product update, the
returned variant list. -/
structure HResp where
  status : Nat
  variants : List UVariant
  deriving DecidableEq, Repr

/-- safe_request from Price_Bandit.py over an oracle stream of the
responses the platform would return to successive identical requests:
a 429 response is skipped after a sleep and the same request is
re-issued, until a non-429 response arrives.  An exhausted stream
(none) models the loop never terminating on an all-429 stream. -/
def safe_request : List HResp → Option HResp
  | [] => none
  | r :: rest => if r.status = 429 then safe_request rest else some r

/-- update_product_variants from Price_Bandit.py, over the same oracle
stream shape: it issues exactly one requests.put (not routed through
safe_request), consumes one response and returns the updated variants
on 200 and the empty list on any other status, 429 included; it never
re-issues the request. -/
def update_product_variants : List HResp → Option (List UVariant)
  | [] => none
  | r :: _ => some (if r.status = 200 then r.variants else [])

/-- One observable platform side effect of a per-product run. -/
inductive Effect where
  | fetchMetafields : Effect
  | deleteAttempt : Effect
  | updateVariantsCall : List Variant → Effect
  | metafieldWrite : String → List EBand → Effect
  | attachImage : Effect

/-- Whether an effect is a metafield write (to any key). -/
def Effect.isMetafieldWrite : Effect → Bool
  | .metafieldWrite _ _ => true
  | _ => false

/-- Whether an effect is the variant create/update call. -/
def Effect.isUpdateCall : Effect → Bool
  | .updateVariantsCall _ => true
  | _ => false

/-- A fetched metafield as get_metafields_by_keys returns it: platform
id and string value; decoded is the result of json.loads on the value
(none models a decode failure), used by the band keys. -/
structure MFVal where
  id : Option Int
  raw : String
  decoded : Option JVal

/-- The environment of one per-product run: the oracle answers of the
platform calls the run makes. -/
structure ProcEnv where
  metafields : List (String × MFVal)
  updateResult : List UVariant
  writeFailKeys : List String

/-- A product row as process_product receives it. -/
structure PyProduct where
  id : Option Int
  title : String

/-- Metafield lookup by key. -/
def mfFind (mfs : List (String × MFVal)) (k : String) : Option MFVal :=
  (mfs.find? (fun kv => kv.1 = k)).map Prod.snd

/-- get_sku from Price_Bandit.py: the sku metafield value, or the empty
string when absent or empty (both falsy). -/
def get_sku (mfs : List (String × MFVal)) : String :=
  match mfFind mfs "sku" with
  | some mf => mf.raw
  | none => ""

/-- get_unit_weight_grams from Price_Bandit.py: int() of the
unit_weight metafield value, zero when absent or unparseable. -/
def get_unit_weight_grams (mfs : List (String × MFVal)) : Int :=
  match mfFind mfs "unit_weight" with
  | some mf => (pyInt mf.raw).getD 0
  | none => 0

/-- One comma-separated colour entry, already stripped: an optional
code after the first colon, both sides stripped again. -/
def parseColourEntry (entry : String) : String × String :=
  if entry.data.contains ':' then
    let (c, code) := pySplitFirst entry ':'
    (pyStrip c, pyStrip code)
  else (entry, "")

/-- The colour parsing of process_product: the stripped product_colours
value split on commas; entries keep their order (and a duplicate colour
name repeats in the list, exactly as the source appends it). -/
def parse_product_colours (value : String) : List String × List (String × String) :=
  let colours_str := pyStrip value
  if colours_str = "" then ([], [])
  else
    let entries := (pySplit colours_str ',').map (fun e => parseColourEntry (pyStrip e))
    (entries.map Prod.fst, entries)

/-- process_product from Price_Bandit.py, as a pure function of the
oracle environment, returning the Python return value (None for the
early skips, False for an aborted run or a caught exception, True for
success) together with the trace of platform effects.  A raise inside
build_variants is caught by the outer handler before the deletion phase
is reached, so that path returns False with only the metafield fetch in
the trace.  The variant deletion phase (source lines 936 to 1036) only
logs and never aborts the run, so it is recorded as a single
deleteAttempt effect; the metafield writes for pricejsontid and
pricejsoneid happen strictly after the updated-variants emptiness
check, and the enrichment is invoked with colour None for both customer
types. -/
def process_product (p : PyProduct) (env : ProcEnv) : Option Bool × List Effect :=
  match p.id with
  | none => (none, [])
  | some _ =>
    if "origination".data <:+: (pyLower p.title).data then (none, [])
    else
      let mfs := env.metafields
      let fx0 := [Effect.fetchMetafields]
      let sku := get_sku mfs
      let unit_weight := get_unit_weight_grams mfs
      let cc := match mfFind mfs "product_colours" with
        | some mf => parse_product_colours mf.raw
        | none => ([], [])
      if ¬ ((mfFind mfs "pricejsontr").isSome ∧ (mfFind mfs "pricejsoner").isSome) then
        (none, fx0)
      else
        let trade_raw := parse_bands ((mfFind mfs "pricejsontr").bind MFVal.decoded)
        let endc_raw := parse_bands ((mfFind mfs "pricejsoner").bind MFVal.decoded)
        if trade_raw.isEmpty && endc_raw.isEmpty then (none, fx0)
        else
          match build_variants trade_raw endc_raw sku unit_weight cc.1 cc.2 with
          | .error _ => (some false, fx0)
          | .ok variants =>
            let fx1 := fx0 ++ [Effect.deleteAttempt]
            let updated := env.updateResult
            let fx2 := fx1 ++ [Effect.updateVariantsCall variants]
            if updated = [] then (some false, fx2)
            else
              match enrich_bands_with_variant_ids trade_raw updated "Trade" none with
              | .error _ => (some false, fx2)
              | .ok etrade =>
                match enrich_bands_with_variant_ids endc_raw updated "End Customer" none with
                | .error _ => (some false, fx2)
                | .ok eendc =>
                  let fx3 := fx2 ++ [Effect.metafieldWrite "pricejsontid" etrade]
                  if env.writeFailKeys.contains "pricejsontid" then (some false, fx3)
                  else
                    let fx4 := fx3 ++ [Effect.metafieldWrite "pricejsoneid" eendc]
                    if env.writeFailKeys.contains "pricejsoneid" then (some false, fx4)
                    else (some true, fx4 ++ [Effect.attachImage])

/-- The per-product results of the batch loop of main: every product in
the input list is processed, in order; no outcome stops the loop. -/
def main_process_all (items : List (PyProduct × ProcEnv)) : List (Option Bool × List Effect) :=
  items.map (fun it => process_product it.1 it.2)

/-- The successful and failed tallies printed by main.  The source
increments successful after every process_product call without reading
its return value, and its except branch (the only place failed is
incremented) is unreachable because the whole body of process_product
sits inside its own except-all handler, so no exception escapes it. -/
def main_counts (items : List (PyProduct × ProcEnv)) : Nat × Nat :=
  items.foldl
    (fun acc it =>
      match process_product it.1 it.2 with
      | (_res, _fx) => (acc.1 + 1, acc.2))
    (0, 0)

/-- A string consisting of an integer part free of decimal points, one
point, then exactly two digits. -/
def hasTwoFracDigits (s : String) : Prop :=
  ∃ pre c₁ c₂, s = pre ++ "." ++ String.mk [c₁, c₂] ∧
    c₁.isDigit ∧ c₂.isDigit ∧ '.' ∉ pre.data

/-- The exact-match predicate of claim C3, read strictly: the variant's
option tuple equals the band's own tuple, which is the label and the
customer type (a parsed band carries no colour component), with no third
option. -/
def exactBandTupleMatch (label customer_type : String) (v : UVariant) : Prop :=
  v.option1 = some label ∧ v.option2 = some customer_type ∧ v.option3 = none

/-- A concrete per-product environment holding one valid trade band,
whose variant create/update call returns zero variants. -/
def bandEnvZero : ProcEnv :=
  { metafields := [
      ("pricejsontr", ⟨some 11, "",
        some (.arr [.obj [("min", .int 1), ("max", .int 10), ("price", .str "5.00")]])⟩),
      ("pricejsoner", ⟨some 12, "", some (.arr [])⟩)],
    updateResult := [],
    writeFailKeys := [] }

/-- The same environment, with the create/update call returning one
matching confirmed variant. -/
def bandEnvOk : ProcEnv :=
  { bandEnvZero with updateResult := [⟨some 7, some "1-10", some "Trade", none⟩] }

instance exactBandTupleMatchDec (label ct : String) (v : UVariant) :
    Decidable (exactBandTupleMatch label ct v) :=
  decidable_of_iff (v.option1 = some label ∧ v.option2 = some ct ∧ v.option3 = none) Iff.rfl

theorem digitChar_isDigit : ∀ m, m < 10 → (Nat.digitChar m).isDigit := by decide

theorem digitsRevAux_isDigit (fuel : Nat) :
    ∀ n, ∀ c ∈ digitsRevAux n fuel, c.isDigit := by
  induction fuel with
  | zero => intro n c hc; simp [digitsRevAux] at hc
  | succ fuel ih =>
    intro n c hc
    rw [digitsRevAux] at hc
    split at hc
    · simp at hc
    · rcases List.mem_cons.mp hc with rfl | hc'
      · exact digitChar_isDigit _ (Nat.mod_lt _ (by omega))
      · exact ih (n / 10) c hc'

theorem digitsRev_isDigit (n : Nat) : ∀ c ∈ digitsRev n, c.isDigit :=
  digitsRevAux_isDigit n n

theorem natDecRepr_isDigit (n : Nat) : ∀ c ∈ (natDecRepr n).data, c.isDigit := by
  unfold natDecRepr
  split
  · intro c hc
    have h0 : ("0" : String).data = ['0'] := rfl
    rw [h0] at hc
    rcases List.mem_singleton.mp hc with rfl
    decide
  · intro c hc
    exact digitsRev_isDigit n c (List.mem_reverse.mp hc)

theorem isDigit_ne_dot {c : Char} (h : c.isDigit) : c ≠ '.' := by
  intro h'; subst h'
  exact absurd h (by decide)

theorem renderCents_hasTwoFracDigits (n : Int) : hasTwoFracDigits (renderCents n) := by
  refine ⟨(if n < 0 then "-" else "") ++ natDecRepr (n.natAbs / 100),
    Nat.digitChar (n.natAbs / 10 % 10), Nat.digitChar (n.natAbs % 10), rfl,
    digitChar_isDigit _ (Nat.mod_lt _ (by omega)),
    digitChar_isDigit _ (Nat.mod_lt _ (by omega)), ?_⟩
  intro hmem
  rw [String.data_append] at hmem
  rcases List.mem_append.mp hmem with h | h
  · split at h
    · have : ("-" : String).data = ['-'] := rfl
      rw [this] at h
      simp at h
    · have : ("" : String).data = [] := rfl
      rw [this] at h
      simp at h
  · exact isDigit_ne_dot (natDecRepr_isDigit _ _ h) rfl

theorem halfUpCentsMag_eq_spec (a e : Nat) :
    halfUpCentsMag a e = (200 * a + 10 ^ e) / (2 * 10 ^ e) := by
  unfold halfUpCentsMag
  split
  · rename_i he
    have hpow : 10 ^ (2 - e) * 10 ^ e = 100 := by
      rw [← pow_add]
      have h2 : 2 - e + e = 2 := by omega
      rw [h2]
      norm_num
    have hnum : 200 * a + 10 ^ e = (2 * 10 ^ e) * (a * 10 ^ (2 - e)) + 10 ^ e := by
      have hh : (2 * 10 ^ e) * (a * 10 ^ (2 - e)) = 2 * a * (10 ^ (2 - e) * 10 ^ e) := by ring
      rw [hh, hpow]
      ring
    rw [hnum, Nat.mul_add_div (by positivity)]
    have hz : 10 ^ e / (2 * 10 ^ e) = 0 := Nat.div_eq_of_lt (by
      have : 0 < 10 ^ e := by positivity
      omega)
    omega
  · rename_i he
    have hppos : 0 < 10 ^ (e - 2) := by positivity
    have hep : 10 ^ e = 100 * 10 ^ (e - 2) := by
      have h2 : e = 2 + (e - 2) := by omega
      calc 10 ^ e = 10 ^ (2 + (e - 2)) := by rw [← h2]
        _ = 10 ^ 2 * 10 ^ (e - 2) := by rw [pow_add]
        _ = 100 * 10 ^ (e - 2) := by norm_num
    have hsplit : a = 10 ^ (e - 2) * (a / 10 ^ (e - 2)) + a % 10 ^ (e - 2) :=
      (Nat.div_add_mod a _).symm
    have hrlt : a % 10 ^ (e - 2) < 10 ^ (e - 2) := Nat.mod_lt _ hppos
    have hnum : 200 * a + 10 ^ e =
        (2 * 10 ^ e) * (a / 10 ^ (e - 2)) +
          (200 * (a % 10 ^ (e - 2)) + 100 * 10 ^ (e - 2)) := by
      rw [hep]
      calc 200 * a + 100 * 10 ^ (e - 2)
          = 200 * (10 ^ (e - 2) * (a / 10 ^ (e - 2)) + a % 10 ^ (e - 2)) +
              100 * 10 ^ (e - 2) := by rw [← hsplit]
        _ = (2 * (100 * 10 ^ (e - 2))) * (a / 10 ^ (e - 2)) +
              (200 * (a % 10 ^ (e - 2)) + 100 * 10 ^ (e - 2)) := by ring
    rw [hnum, Nat.mul_add_div (by positivity)]
    congr 1
    split
    · rename_i hge
      have h1 : 1 * (2 * 10 ^ e) ≤ 200 * (a % 10 ^ (e - 2)) + 100 * 10 ^ (e - 2) := by
        rw [hep]; omega
      have h2 : 200 * (a % 10 ^ (e - 2)) + 100 * 10 ^ (e - 2) < (1 + 1) * (2 * 10 ^ e) := by
        rw [hep]; omega
      rw [Nat.div_eq_of_lt_le h1 h2]
    · rename_i hlt
      rw [Nat.div_eq_of_lt (by rw [hep]; omega)]

theorem halfUpCents_eq_specCents (d : Dec) : halfUpCents d = specCents d := by
  unfold halfUpCents specCents
  rw [halfUpCentsMag_eq_spec]

/-- C4: for every numeric input and every numeric-string input,
format_price returns a string with exactly two digits after the decimal
point, equal to the half-up rounding of the input's decimal value to
cents (specCents restates that rounding in the spec's words, and
renderCents prints an integer part, a point and exactly two digits);
in particular 2.005 formats to 2.01 and 2.004 to 2.00. -/
theorem format_price_two_decimals_half_up :
    (∀ n : Int, format_price (.int n) = .ok (renderCents (specCents ⟨n, 0⟩)) ∧
      hasTwoFracDigits (renderCents (specCents ⟨n, 0⟩))) ∧
    (∀ d : Dec, format_price (.float d) = .ok (renderCents (specCents d)) ∧
      hasTwoFracDigits (renderCents (specCents d))) ∧
    (∀ (s : String) (d : Dec), parseDecLit s = some d →
      format_price (.str s) = .ok (renderCents (specCents d)) ∧
      hasTwoFracDigits (renderCents (specCents d))) ∧
    format_price (.str "2.005") = .ok "2.01" ∧
    format_price (.str "2.004") = .ok "2.00" := by
  refine ⟨fun n => ⟨?_, renderCents_hasTwoFracDigits _⟩,
    fun d => ⟨?_, renderCents_hasTwoFracDigits _⟩,
    fun s d h => ⟨?_, renderCents_hasTwoFracDigits _⟩, by decide, by decide⟩
  · rw [show format_price (.int n) = .ok (renderCents (halfUpCents ⟨n, 0⟩)) from rfl,
      halfUpCents_eq_specCents]
  · rw [show format_price (.float d) = .ok (renderCents (halfUpCents d)) from rfl,
      halfUpCents_eq_specCents]
  · show (match parseDecLit s with
      | some d => Except.ok (renderCents (halfUpCents d))
      | none => Except.error PyErr.invalidOperation) = _
    rw [h]
    show Except.ok (renderCents (halfUpCents d)) = _
    rw [halfUpCents_eq_specCents]

/-- Witness for C4: the numeric-string branch applied at the concrete
literal 7.125, whose half-up formatting is 7.13. -/
theorem format_price_two_decimals_half_up_witness :
    format_price (.str "7.125") = .ok "7.13" ∧ hasTwoFracDigits "7.13" := by
  have h := format_price_two_decimals_half_up.2.2.1 "7.125" ⟨7125, 3⟩ (by decide)
  exact ⟨h.1, h.2⟩

/-- C10: format_price is not total on arbitrary strings.  On the input
string abc, Decimal(str(price)) raises decimal.InvalidOperation, which
the except clause (catching only ValueError and TypeError) does not
intercept, so the call raises instead of returning the input string. -/
theorem format_price_raises_on_nonnumeric_string :
    format_price (.str "abc") = .error .invalidOperation ∧
    ∀ s, format_price (.str "abc") ≠ .ok s := by
  refine ⟨by decide, fun s h => ?_⟩
  rw [show format_price (.str "abc") = .error .invalidOperation from by decide] at h
  exact Except.noConfusion h

/-- The label set collected from two band lists is the set of labels of
the union of the lists. -/
theorem mem_collect_unique_band_labels (tb eb : List Band) (s : String) :
    s ∈ collect_unique_band_labels tb eb ↔ ∃ b ∈ tb ++ eb, band_label b = s := by
  unfold collect_unique_band_labels
  dsimp only
  split
  · rw [(List.perm_insertionSort numLe _).mem_iff, List.mem_dedup, List.mem_map]
  · rw [(List.perm_insertionSort lexLe _).mem_iff, List.mem_dedup, List.mem_map]

/-- The collected labels carry no duplicates. -/
theorem nodup_collect_unique_band_labels (tb eb : List Band) :
    (collect_unique_band_labels tb eb).Nodup := by
  unfold collect_unique_band_labels
  dsimp only
  split
  · exact ((List.perm_insertionSort numLe _).nodup_iff).mpr (List.nodup_dedup _)
  · exact ((List.perm_insertionSort lexLe _).nodup_iff).mpr (List.nodup_dedup _)

/-- C5: collect_unique_band_labels returns the deduplicated label set of
the union of both band lists; when int() succeeds on every label's text
before the dash the result is sorted ascending by that integer, and when
any parse fails the whole sorted call falls back to lexicographic order.
Both orderings are reached by the two closing concrete runs: integer
bounds sort 2-5 before 10-20 numerically, while a non-numeric min value
forces the lexicographic fallback, which sorts a10-20 before b-5. -/
theorem collect_unique_band_labels_ordering (tb eb : List Band) :
    (∀ s, s ∈ collect_unique_band_labels tb eb ↔ ∃ b ∈ tb ++ eb, band_label b = s) ∧
    (collect_unique_band_labels tb eb).Nodup ∧
    ((((tb ++ eb).map band_label).dedup.all (fun s => (intBeforeDash s).isSome)) →
      (collect_unique_band_labels tb eb).Sorted numLe) ∧
    (¬ (((tb ++ eb).map band_label).dedup.all (fun s => (intBeforeDash s).isSome)) →
      (collect_unique_band_labels tb eb).Sorted lexLe) ∧
    collect_unique_band_labels [⟨.int 2, .int 5, .int 0⟩] [⟨.int 10, .int 20, .int 0⟩] =
      ["2-5", "10-20"] ∧
    collect_unique_band_labels [⟨.str "b", .int 5, .int 0⟩] [⟨.str "a10", .int 20, .int 0⟩] =
      ["a10-20", "b-5"] := by
  refine ⟨mem_collect_unique_band_labels tb eb, nodup_collect_unique_band_labels tb eb,
    fun h => ?_, fun h => ?_, by decide, by decide⟩
  · unfold collect_unique_band_labels
    dsimp only
    rw [if_pos h]
    exact List.sorted_insertionSort numLe _
  · unfold collect_unique_band_labels
    dsimp only
    rw [if_neg h]
    exact List.sorted_insertionSort lexLe _

/-- Witness for C5: both sort paths discharged at the concrete inputs of
the theorem's closing equations. -/
theorem collect_unique_band_labels_ordering_witness :
    (collect_unique_band_labels [⟨.int 2, .int 5, .int 0⟩]
      [⟨.int 10, .int 20, .int 0⟩]).Sorted numLe ∧
    (collect_unique_band_labels [⟨.str "b", .int 5, .int 0⟩]
      [⟨.str "a10", .int 20, .int 0⟩]).Sorted lexLe := by
  exact ⟨(collect_unique_band_labels_ordering _ _).2.2.1 (by decide),
    (collect_unique_band_labels_ordering [⟨.str "b", .int 5, .int 0⟩]
      [⟨.str "a10", .int 20, .int 0⟩]).2.2.2.1 (by decide)⟩

theorem find?_label_exists {bands : List Band} {label : String} {b : Band}
    (hb : b ∈ bands) (hl : band_label b = label) :
    ∃ b', bands.find? (fun x => band_label x = label) = some b' ∧ band_label b' = label := by
  have hs : (bands.find? (fun x => band_label x = label)).isSome := by
    rw [List.find?_isSome]
    exact ⟨b, hb, by simp [hl]⟩
  rcases Option.isSome_iff_exists.mp hs with ⟨b', hb'⟩
  exact ⟨b', hb', by simpa using List.find?_some hb'⟩

/-- A match found with colour None lies in the confirmed list and agrees
with the band's label and customer type either through the colourless
shape on option1 and option2, or through the colour-ignoring fallback on
option2 and option3. -/
theorem enrichMatch_none_spec {updated : List UVariant} {label ct : String} {v : UVariant}
    (h : enrichMatch updated label ct none = some v) :
    v ∈ updated ∧
      ((v.option1 = some label ∧ v.option2 = some ct) ∨
       (v.option2 = some label ∧ v.option3 = some ct)) := by
  unfold enrichMatch at h
  rw [if_neg (by simp [colourTruthy])] at h
  cases hf : updated.find? (fun v => v.option1 = some label ∧ v.option2 = some ct) with
  | some w =>
    rw [hf] at h
    cases h
    have hp := List.find?_some hf
    simp at hp
    exact ⟨List.mem_of_find?_eq_some hf, Or.inl hp⟩
  | none =>
    rw [hf] at h
    have hp := List.find?_some h
    simp at hp
    exact ⟨List.mem_of_find?_eq_some h, Or.inr hp⟩

/-- C3 counterexample: process_product invokes the enrichment with
colour None even when the product has a colour dimension, so with
colour-shaped confirmed variants (a Red variant of label 1-10 and type
Trade, carrying id 101) the band is enriched with id 101 through the
colour-ignoring fallback, although no confirmed variant's option tuple
exactly matches the band's own (label, customerType) tuple: the Red
variant carries the colour in option1 and a third option. -/
theorem enrich_exact_tuple_counterexample :
    enrich_bands_with_variant_ids [⟨.int 1, .int 10, .int 5⟩]
      [⟨some 101, some "Red", some "1-10", some "Trade"⟩] "Trade" none =
      .ok [⟨.int 1, .int 10, "5.00", 101⟩] ∧
    ¬ ∃ v ∈ [(⟨some 101, some "Red", some "1-10", some "Trade"⟩ : UVariant)],
      v.id = some (101 : Int) ∧ exactBandTupleMatch "1-10" "Trade" v :=
  ⟨rfl, by decide⟩

/-- C3 amended: as invoked by process_product (colour always None), every
band kept in the enriched output carries the truthy id of a confirmed
variant from the returned list whose options agree with the band's
(label, customerType) either exactly through the colourless shape
(option1, option2) or through the colour-ignoring first-match fallback
(option2, option3); a band with no such match, or whose match has a
falsy id, is dropped and never given an invented id. -/
theorem enrich_injected_id_sound (bands : List Band) (updated : List UVariant)
    (ct : String) (out : List EBand)
    (h : enrich_bands_with_variant_ids bands updated ct none = .ok out) :
    ∀ e ∈ out, ∃ v ∈ updated, v.id = some e.id ∧ e.id ≠ 0 ∧
      ((v.option1 = some (ebandLabel e) ∧ v.option2 = some ct) ∨
       (v.option2 = some (ebandLabel e) ∧ v.option3 = some ct)) := by
  induction bands generalizing out with
  | nil =>
    rw [enrich_bands_with_variant_ids] at h
    cases h
    intro e he
    simp at he
  | cons b rest ih =>
    rw [enrich_bands_with_variant_ids] at h
    cases hm : enrichMatch updated (band_label b) ct none with
    | none =>
      rw [hm] at h
      exact ih out h
    | some v =>
      rw [hm] at h
      dsimp only at h
      cases hid : v.id with
      | none =>
        rw [hid] at h
        dsimp only at h
        exact ih out h
      | some i =>
        rw [hid] at h
        dsimp only at h
        by_cases hz : i ≠ 0
        · rw [if_pos hz] at h
          cases hfp : format_price b.price with
          | error err => rw [hfp] at h; dsimp only at h; cases h
          | ok p =>
            rw [hfp] at h
            dsimp only at h
            cases ht : enrich_bands_with_variant_ids rest updated ct none with
            | error err => rw [ht] at h; dsimp only at h; cases h
            | ok tail =>
              rw [ht] at h
              dsimp only at h
              cases h
              intro e he
              rcases List.mem_cons.mp he with rfl | he'
              · rcases enrichMatch_none_spec hm with ⟨hvmem, hvopt⟩
                exact ⟨v, hvmem, by rw [hid], hz, hvopt⟩
              · exact ih tail ht e he'
        · rw [if_neg hz] at h
          exact ih out h

/-- Witness for C3: the amended theorem applied to one band of label
1-10 matched against a single colourless confirmed variant with id 7. -/
theorem enrich_injected_id_sound_witness :
    ∃ v ∈ [(⟨some 7, some "1-10", some "Trade", none⟩ : UVariant)],
      v.id = some (⟨.int 1, .int 10, "5.00", 7⟩ : EBand).id ∧
      (⟨.int 1, .int 10, "5.00", 7⟩ : EBand).id ≠ 0 ∧
      ((v.option1 = some (ebandLabel ⟨.int 1, .int 10, "5.00", 7⟩) ∧
          v.option2 = some "Trade") ∨
       (v.option2 = some (ebandLabel ⟨.int 1, .int 10, "5.00", 7⟩) ∧
          v.option3 = some "Trade")) :=
  enrich_injected_id_sound [⟨.int 1, .int 10, .int 5⟩]
    [⟨some 7, some "1-10", some "Trade", none⟩] "Trade" [⟨.int 1, .int 10, "5.00", 7⟩]
    rfl ⟨.int 1, .int 10, "5.00", 7⟩ (List.mem_singleton.mpr rfl)

/-- C6: parse_bands is all-or-nothing per list: a json decode failure, a
non-list decode, or any element that is not a mapping with the keys min,
max and price empties the whole result; otherwise the full list is
returned with every string price coerced to the float it parses to, and
a price whose coercion fails keeps its original value (the closing
concrete runs show both coercion outcomes). -/
theorem parse_bands_all_or_nothing :
    parse_bands none = [] ∧
    (∀ v : JVal, (∀ xs, v ≠ .arr xs) → parse_bands (some v) = []) ∧
    (∀ xs : List JVal, (∃ x ∈ xs, ¬ validate_band_structure x) →
      parse_bands (some (.arr xs)) = []) ∧
    (∀ xs : List JVal, (∀ x ∈ xs, validate_band_structure x) →
      parse_bands (some (.arr xs)) = xs.map coerceBandObj) ∧
    parse_bands (some (.arr [.obj [("min", .int 1), ("max", .int 10),
        ("price", .str "5.50")]])) = [⟨.int 1, .int 10, .float ⟨550, 2⟩⟩] ∧
    parse_bands (some (.arr [.obj [("min", .int 1), ("max", .int 10),
        ("price", .str "abc")]])) = [⟨.int 1, .int 10, .str "abc"⟩] := by
  refine ⟨rfl, fun v hv => ?_, fun xs hx => ?_, fun xs hx => ?_, rfl, rfl⟩
  · cases v
    case arr xs => exact absurd rfl (hv xs)
    all_goals rfl
  · rcases hx with ⟨x, hmem, hbad⟩
    unfold parse_bands
    dsimp only
    rw [if_neg (by
      simp only [List.all_eq_true]
      push_neg
      exact ⟨x, hmem, hbad⟩)]
  · unfold parse_bands
    dsimp only
    rw [if_pos (by
      simp only [List.all_eq_true]
      exact hx)]

/-- Witness for C6: a conforming one-band list is kept whole, and a list
whose only element lacks the price key is emptied. -/
theorem parse_bands_all_or_nothing_witness :
    parse_bands (some (.arr [.obj [("min", .int 2), ("max", .int 4), ("price", .int 9)]])) =
      [⟨.int 2, .int 4, .int 9⟩] ∧
    parse_bands (some (.arr [.obj [("min", .int 2), ("max", .int 4)]])) = [] := by
  constructor
  · exact parse_bands_all_or_nothing.2.2.2.1 _ (by decide)
  · exact parse_bands_all_or_nothing.2.2.1 _ ⟨.obj [("min", .int 2), ("max", .int 4)],
      List.mem_singleton.mpr rfl, by decide⟩

/-- C7: when the variant create/update step returns zero variants, the
per-product run performs no metafield write at all (no pricejsontid or
pricejsoneid write appears in the effect trace on any path), and if the
run reached the create/update call it returns False, reporting the
product as failed. -/
theorem process_product_no_writes_on_zero_variants (p : PyProduct) (env : ProcEnv)
    (h : env.updateResult = []) :
    (∀ e ∈ (process_product p env).2, e.isMetafieldWrite = false) ∧
    ((∃ e ∈ (process_product p env).2, e.isUpdateCall = true) →
      (process_product p env).1 = some false) := by
  unfold process_product
  cases p.id with
  | none =>
    exact ⟨fun e he => by simp at he, fun ⟨e, he, _⟩ => by simp at he⟩
  | some pid =>
    dsimp only
    split
    · exact ⟨fun e he => by simp at he, fun ⟨e, he, _⟩ => by simp at he⟩
    · split
      · refine ⟨fun e he => ?_, fun ⟨e, he, hc⟩ => ?_⟩
        · simp only [List.mem_singleton] at he; subst he; rfl
        · simp only [List.mem_singleton] at he
          subst he
          simp [Effect.isUpdateCall] at hc
      · split
        · refine ⟨fun e he => ?_, fun ⟨e, he, hc⟩ => ?_⟩
          · simp only [List.mem_singleton] at he; subst he; rfl
          · simp only [List.mem_singleton] at he
            subst he
            simp [Effect.isUpdateCall] at hc
        · split
          · refine ⟨fun e he => ?_, fun ⟨e, he, hc⟩ => ?_⟩
            · simp only [List.mem_singleton] at he; subst he; rfl
            · simp only [List.mem_singleton] at he
              subst he
              simp [Effect.isUpdateCall] at hc
          · refine ⟨fun e he => ?_, fun _ => rfl⟩
            simp only [List.mem_append, List.mem_singleton] at he
            rcases he with (he | he) | he <;> subst he <;> rfl

/-- Witness for C7: a product with one valid trade band whose
create/update call returns zero variants. -/
theorem process_product_no_writes_on_zero_variants_witness :
    (∀ e ∈ (process_product ⟨some 1, "Widget"⟩ bandEnvZero).2,
      e.isMetafieldWrite = false) ∧
    ((∃ e ∈ (process_product ⟨some 1, "Widget"⟩ bandEnvZero).2, e.isUpdateCall = true) →
      (process_product ⟨some 1, "Widget"⟩ bandEnvZero).1 = some false) :=
  process_product_no_writes_on_zero_variants ⟨some 1, "Widget"⟩ bandEnvZero rfl

/-- C8 counterexample: the variant create/update call issues its
requests.put directly, not through safe_request; on a 429 response it
returns the empty list without re-issuing the request, so feeding it a
stream whose head is a 429 does not behave like the stream without that
429 (safe_request would): the call reports failure even though the very
next response would have succeeded. -/
theorem update_variants_429_no_retry_counterexample :
    update_product_variants [⟨429, []⟩, ⟨200, [⟨some 1, none, none, none⟩]⟩] ≠
      update_product_variants [⟨200, [⟨some 1, none, none, none⟩]⟩] ∧
    update_product_variants [⟨429, []⟩, ⟨200, [⟨some 1, none, none, none⟩]⟩] = some [] ∧
    update_product_variants [⟨200, [⟨some 1, none, none, none⟩]⟩] =
      some [⟨some 1, none, none, none⟩] :=
  ⟨by decide, by decide, by decide⟩

/-- C8 amended: only the calls routed through safe_request (the
paginated product and metafield fetches, metafield create and update,
and the product fetch of the image sync) retry on HTTP 429 until a
non-429 response arrives; the variant create/update call (like the
GraphQL deletion, variant-page fetches and image assignment, which use
the requests library directly) consumes exactly one response and treats
a 429 as an ordinary failure, returning the empty list. -/
theorem rate_limit_retry_via_safe_request :
    (∀ (r : HResp) (s : List HResp), r.status = 429 →
      safe_request (r :: s) = safe_request s) ∧
    (∀ (r : HResp) (s : List HResp),
      update_product_variants (r :: s) =
        some (if r.status = 200 then r.variants else [])) := by
  constructor
  · intro r s h
    show (if r.status = 429 then safe_request s else some r) = safe_request s
    rw [if_pos h]
  · intro r s
    rfl

/-- Witness for C8: safe_request skips a concrete 429 head. -/
theorem rate_limit_retry_via_safe_request_witness :
    safe_request [⟨429, []⟩, ⟨200, []⟩] = safe_request [⟨200, []⟩] :=
  rate_limit_retry_via_safe_request.1 ⟨429, []⟩ [⟨200, []⟩] rfl

/-- C9: the batch loop of main never lets one product's failure stop the
batch, but the printed tallies do not count failures: main increments
successful after every process_product call without reading its return
value, and its except branch (the only place failed is incremented) is
unreachable because process_product catches its own exceptions.  Here a
two-product batch whose first product fails (variant update returns
zero variants, process_product returns False) and whose second product
succeeds is tallied as two successful, zero failed, where the claim
requires one and one. -/
theorem main_counts_failure_as_success :
    (process_product ⟨some 1, "Widget"⟩ bandEnvZero).1 = some false ∧
    (process_product ⟨some 2, "Gadget"⟩ bandEnvOk).1 = some true ∧
    main_counts [(⟨some 1, "Widget"⟩, bandEnvZero), (⟨some 2, "Gadget"⟩, bandEnvOk)] =
      (2, 0) :=
  ⟨by decide, by decide, by decide⟩

/-- A successful sequential concatenation decomposes into successful
halves. -/
theorem appendE_ok {a b : Except PyErr (List Variant)} {vs : List Variant}
    (h : appendE a b = .ok vs) :
    ∃ xs ys, a = .ok xs ∧ b = .ok ys ∧ vs = xs ++ ys := by
  unfold appendE at h
  cases a with
  | error e => cases h
  | ok xs =>
    cases b with
    | error e => cases h
    | ok ys => cases h; exact ⟨xs, ys, rfl, rfl, rfl⟩

/-- Membership in a successful fallible flat map. -/
theorem flatMapE_mem {α : Type} {f : α → Except PyErr (List Variant)} {l : List α}
    {vs : List Variant} (h : flatMapE f l = .ok vs) (v : Variant) :
    v ∈ vs ↔ ∃ x ∈ l, ∃ ys, f x = .ok ys ∧ v ∈ ys := by
  induction l generalizing vs with
  | nil =>
    rw [flatMapE] at h
    cases h
    simp
  | cons x xs ih =>
    rw [flatMapE] at h
    rcases appendE_ok h with ⟨ys, zs, hfy, hfz, rfl⟩
    constructor
    · intro hv
      rcases List.mem_append.mp hv with hv | hv
      · exact ⟨x, List.mem_cons_self x xs, ys, hfy, hv⟩
      · rcases (ih hfz).mp hv with ⟨x', hx', ws, hw, hvw⟩
        exact ⟨x', List.mem_cons_of_mem x hx', ws, hw, hvw⟩
    · rintro ⟨x', hx', ws, hw, hvw⟩
      rcases List.mem_cons.mp hx' with rfl | hx'
      · rw [hfy] at hw
        cases hw
        exact List.mem_append.mpr (Or.inl hvw)
      · exact List.mem_append.mpr (Or.inr ((ih hfz).mpr ⟨x', hx', ws, hw, hvw⟩))

/-- A successful fallible flat map succeeded on every element. -/
theorem flatMapE_ok_all {α : Type} {f : α → Except PyErr (List Variant)} {l : List α}
    {vs : List Variant} (h : flatMapE f l = .ok vs) :
    ∀ x ∈ l, ∃ ys, f x = .ok ys := by
  induction l generalizing vs with
  | nil => intro x hx; simp at hx
  | cons x xs ih =>
    rw [flatMapE] at h
    rcases appendE_ok h with ⟨ys, zs, hfy, hfz, rfl⟩
    intro x' hx'
    rcases List.mem_cons.mp hx' with rfl | hx'
    · exact ⟨ys, hfy⟩
    · exact ih hfz x' hx'

/-- A fallible flat map whose every element succeeds succeeds. -/
theorem flatMapE_ok_of_all {α : Type} {f : α → Except PyErr (List Variant)} {l : List α}
    (h : ∀ x ∈ l, ∃ ys, f x = .ok ys) : ∃ vs, flatMapE f l = .ok vs := by
  induction l with
  | nil => exact ⟨[], rfl⟩
  | cons x xs ih =>
    rcases h x (List.mem_cons_self x xs) with ⟨ys, hy⟩
    rcases ih (fun x' hx' => h x' (List.mem_cons_of_mem x hx')) with ⟨vs, hv⟩
    refine ⟨ys ++ vs, ?_⟩
    rw [flatMapE, hy, hv]
    rfl

/-- Membership in a successful per-label contribution comes from the
first band found for the label. -/
theorem optVariant_mem {bands : List Band} {label ct sku : String} {uw : Int}
    {colour : Option String} {ys : List Variant}
    (h : optVariant bands label ct sku uw colour = .ok ys) (v : Variant) :
    v ∈ ys ↔ ∃ b, bands.find? (fun b => band_label b = label) = some b ∧
      build_variant_for_band label b ct sku uw colour = .ok v := by
  unfold optVariant at h
  cases hf : bands.find? (fun b => band_label b = label) with
  | none =>
    rw [hf] at h
    dsimp only at h
    cases h
    simp
  | some b =>
    rw [hf] at h
    dsimp only at h
    cases hb : build_variant_for_band label b ct sku uw colour with
    | error e => rw [hb] at h; cases h
    | ok w =>
      rw [hb] at h
      cases h
      constructor
      · intro hv
        rcases List.mem_singleton.mp hv with rfl
        exact ⟨b, rfl, hb⟩
      · rintro ⟨b', hb', hw'⟩
        injection hb' with hbb
        subst hbb
        rw [hb] at hw'
        cases hw'
        exact List.mem_singleton.mpr rfl

/-- When the label does find a band, a successful per-label contribution
is the singleton of a successfully built variant. -/
theorem optVariant_find_ok {bands : List Band} {label ct sku : String} {uw : Int}
    {colour : Option String} {ys : List Variant} {b : Band}
    (h : optVariant bands label ct sku uw colour = .ok ys)
    (hf : bands.find? (fun b => band_label b = label) = some b) :
    ∃ v, build_variant_for_band label b ct sku uw colour = .ok v ∧ ys = [v] := by
  unfold optVariant at h
  rw [hf] at h
  dsimp only at h
  cases hb : build_variant_for_band label b ct sku uw colour with
  | error e => rw [hb] at h; cases h
  | ok w =>
    rw [hb] at h
    cases h
    exact ⟨w, rfl, rfl⟩

/-- A variant built without a colour carries the two-component tuple. -/
theorem tupleOf_build_none {label : String} {b : Band} {ct sku : String} {uw : Int}
    {v : Variant} (h : build_variant_for_band label b ct sku uw none = .ok v) :
    tupleOfVariant v = .two label ct := by
  unfold build_variant_for_band at h
  cases hfp : format_price b.price with
  | error e => rw [hfp] at h; cases h
  | ok p =>
    rw [hfp] at h
    dsimp only [colourTruthy] at h
    rw [if_neg Bool.false_ne_true] at h
    cases h
    rfl

/-- A variant built with a truthy colour carries the three-component
tuple. -/
theorem tupleOf_build_some {label : String} {b : Band} {ct sku : String} {uw : Int}
    {c : String} {v : Variant} (hc : c ≠ "")
    (h : build_variant_for_band label b ct sku uw (some c) = .ok v) :
    tupleOfVariant v = .three c label ct := by
  unfold build_variant_for_band at h
  cases hfp : format_price b.price with
  | error e => rw [hfp] at h; cases h
  | ok p =>
    rw [hfp] at h
    dsimp only at h
    rw [show colourTruthy (some c) = true from by simp [colourTruthy, hc]] at h
    rw [if_pos (rfl : (true : Bool) = true)] at h
    cases h
    rfl

/-- Building a variant succeeds whenever the band's price formats. -/
theorem build_variant_for_band_ok (label : String) (b : Band) (ct sku : String)
    (uw : Int) (colour : Option String) {p : String}
    (h : format_price b.price = .ok p) :
    ∃ v, build_variant_for_band label b ct sku uw colour = .ok v := by
  unfold build_variant_for_band
  rw [h]
  dsimp only
  cases colourTruthy colour
  · rw [if_neg Bool.false_ne_true]
    exact ⟨_, rfl⟩
  · rw [if_pos (rfl : (true : Bool) = true)]
    exact ⟨_, rfl⟩

/-- A per-label contribution succeeds when every band price formats. -/
theorem optVariant_ok_of_prices {bands : List Band} {label ct sku : String} {uw : Int}
    {colour : Option String}
    (h : ∀ b ∈ bands, ∃ p, format_price b.price = .ok p) :
    ∃ ys, optVariant bands label ct sku uw colour = .ok ys := by
  unfold optVariant
  cases hf : bands.find? (fun b => band_label b = label) with
  | none => exact ⟨[], rfl⟩
  | some b =>
    rcases h b (List.mem_of_find?_eq_some hf) with ⟨p, hp⟩
    rcases build_variant_for_band_ok label b ct sku uw colour hp with ⟨v, hv⟩
    dsimp only
    rw [hv]
    exact ⟨[v], rfl⟩

/-- C1 counterexample: build_variants does not return a list on every
fixed input.  A band whose price is the string abc is kept by
parse_bands' non-fatal coercion and reaches the synthesizer from
process_product; there format_price raises decimal.InvalidOperation,
which nothing in build_variants catches, so the call raises instead of
returning a variant list. -/
theorem build_variants_raises_counterexample :
    build_variants [⟨.int 1, .int 10, .str "abc"⟩] [] "SKU" 0 [] [] =
      .error .invalidOperation :=
  by decide

/-- C1 amended: build_variants is pure (no network I/O: the embedding is
a function of exactly the six inputs, with no response oracle) and
deterministic: two calls on the same input produce the same outcome,
the same variant list when it returns and the same
decimal.InvalidOperation raise when some band price does not format;
and whenever every band's price formats, it does return a list. -/
theorem build_variants_deterministic (trade_bands endc_bands : List Band) (sku : String)
    (unit_weight : Int) (colours : List String) (colour_codes : List (String × String)) :
    build_variants trade_bands endc_bands sku unit_weight colours colour_codes =
      build_variants trade_bands endc_bands sku unit_weight colours colour_codes ∧
    ((∀ b ∈ trade_bands ++ endc_bands, ∃ p, format_price b.price = .ok p) →
      ∃ vs, build_variants trade_bands endc_bands sku unit_weight colours colour_codes =
        .ok vs) := by
  refine ⟨rfl, fun h => ?_⟩
  have htr : ∀ b ∈ trade_bands, ∃ p, format_price b.price = .ok p :=
    fun b hb => h b (List.mem_append.mpr (Or.inl hb))
  have hen : ∀ b ∈ endc_bands, ∃ p, format_price b.price = .ok p :=
    fun b hb => h b (List.mem_append.mpr (Or.inr hb))
  unfold build_variants
  dsimp only
  split
  · apply flatMapE_ok_of_all
    intro c _
    dsimp only
    apply flatMapE_ok_of_all
    intro label _
    rcases optVariant_ok_of_prices htr with ⟨ys, hy⟩
    rcases optVariant_ok_of_prices hen with ⟨zs, hz⟩
    refine ⟨ys ++ zs, ?_⟩
    rw [hy, hz]
    rfl
  · apply flatMapE_ok_of_all
    intro label _
    rcases optVariant_ok_of_prices htr with ⟨ys, hy⟩
    rcases optVariant_ok_of_prices hen with ⟨zs, hz⟩
    refine ⟨ys ++ zs, ?_⟩
    rw [hy, hz]
    rfl

/-- Witness for C1: the formats-everywhere hypothesis discharged at one
trade band with an integer price, yielding a returned list. -/
theorem build_variants_deterministic_witness :
    ∃ vs, build_variants [⟨.int 1, .int 10, .int 5⟩] [] "SKU" 0 [] [] = .ok vs := by
  refine (build_variants_deterministic [⟨.int 1, .int 10, .int 5⟩] [] "SKU" 0 [] []).2 ?_
  intro b hb
  rcases List.mem_singleton.mp (by simpa using hb) with rfl
  exact ⟨"5.00", by decide⟩

/-- With no colours, the option tuples of a returned candidate list are
exactly the label-customer-type pairs over the input bands. -/
theorem mem_variantTuples_no_colour (tb eb : List Band) (sku : String) (uw : Int)
    (codes : List (String × String)) {vs : List Variant}
    (h : build_variants tb eb sku uw [] codes = .ok vs) (t : VTuple) :
    t ∈ variantTuples vs ↔
      (∃ b ∈ tb, t = .two (band_label b) "Trade") ∨
      (∃ b ∈ eb, t = .two (band_label b) "End Customer") := by
  unfold build_variants at h
  rw [if_neg (by simp)] at h
  unfold variantTuples
  rw [List.mem_map]
  constructor
  · rintro ⟨v, hv, rfl⟩
    rcases (flatMapE_mem h v).mp hv with ⟨label, hlabel, ys, hfy, hvy⟩
    rcases appendE_ok hfy with ⟨y1, y2, h1, h2, rfl⟩
    rcases List.mem_append.mp hvy with hvy | hvy
    · rcases (optVariant_mem h1 v).mp hvy with ⟨b, hfind, hbuild⟩
      left
      refine ⟨b, List.mem_of_find?_eq_some hfind, ?_⟩
      rw [tupleOf_build_none hbuild]
      have := List.find?_some hfind
      simp at this
      rw [this]
    · rcases (optVariant_mem h2 v).mp hvy with ⟨b, hfind, hbuild⟩
      right
      refine ⟨b, List.mem_of_find?_eq_some hfind, ?_⟩
      rw [tupleOf_build_none hbuild]
      have := List.find?_some hfind
      simp at this
      rw [this]
  · rintro (⟨b, hb, rfl⟩ | ⟨b, hb, rfl⟩)
    · have hlab : band_label b ∈ collect_unique_band_labels tb eb :=
        (mem_collect_unique_band_labels tb eb _).mpr
          ⟨b, List.mem_append.mpr (Or.inl hb), rfl⟩
      rcases flatMapE_ok_all h _ hlab with ⟨ys, hfy⟩
      rcases appendE_ok hfy with ⟨y1, y2, h1, h2, rfl⟩
      rcases find?_label_exists hb rfl with ⟨b', hfind, hl'⟩
      rcases optVariant_find_ok h1 hfind with ⟨v, hbuild, rfl⟩
      refine ⟨v, ?_, tupleOf_build_none hbuild⟩
      exact (flatMapE_mem h v).mpr ⟨band_label b, hlab, [v] ++ y2, hfy,
        List.mem_append.mpr (Or.inl (List.mem_singleton.mpr rfl))⟩
    · have hlab : band_label b ∈ collect_unique_band_labels tb eb :=
        (mem_collect_unique_band_labels tb eb _).mpr
          ⟨b, List.mem_append.mpr (Or.inr hb), rfl⟩
      rcases flatMapE_ok_all h _ hlab with ⟨ys, hfy⟩
      rcases appendE_ok hfy with ⟨y1, y2, h1, h2, rfl⟩
      rcases find?_label_exists hb rfl with ⟨b', hfind, hl'⟩
      rcases optVariant_find_ok h2 hfind with ⟨v, hbuild, rfl⟩
      refine ⟨v, ?_, tupleOf_build_none hbuild⟩
      exact (flatMapE_mem h v).mpr ⟨band_label b, hlab, y1 ++ [v], hfy,
        List.mem_append.mpr (Or.inr (List.mem_singleton.mpr rfl))⟩

/-- With a non-empty colour list of non-empty colour names, the option
tuples of a returned candidate list are exactly the colour-label-type
triples over the input bands. -/
theorem mem_variantTuples_with_colours (tb eb : List Band) (sku : String) (uw : Int)
    (colours : List String) (codes : List (String × String))
    (hne : colours ≠ []) (hc : ∀ c ∈ colours, c ≠ "") {vs : List Variant}
    (h : build_variants tb eb sku uw colours codes = .ok vs) (t : VTuple) :
    t ∈ variantTuples vs ↔
      (∃ c ∈ colours, ∃ b ∈ tb, t = .three c (band_label b) "Trade") ∨
      (∃ c ∈ colours, ∃ b ∈ eb, t = .three c (band_label b) "End Customer") := by
  unfold build_variants at h
  rw [if_pos hne] at h
  unfold variantTuples
  rw [List.mem_map]
  constructor
  · rintro ⟨v, hv, rfl⟩
    rcases (flatMapE_mem h v).mp hv with ⟨c, hcmem, ws, hfw, hvw⟩
    dsimp only at hfw
    rcases (flatMapE_mem hfw v).mp hvw with ⟨label, hlabel, ys, hfy, hvy⟩
    rcases appendE_ok hfy with ⟨y1, y2, h1, h2, rfl⟩
    rcases List.mem_append.mp hvy with hvy | hvy
    · rcases (optVariant_mem h1 v).mp hvy with ⟨b, hfind, hbuild⟩
      left
      refine ⟨c, hcmem, b, List.mem_of_find?_eq_some hfind, ?_⟩
      rw [tupleOf_build_some (hc c hcmem) hbuild]
      have := List.find?_some hfind
      simp at this
      rw [this]
    · rcases (optVariant_mem h2 v).mp hvy with ⟨b, hfind, hbuild⟩
      right
      refine ⟨c, hcmem, b, List.mem_of_find?_eq_some hfind, ?_⟩
      rw [tupleOf_build_some (hc c hcmem) hbuild]
      have := List.find?_some hfind
      simp at this
      rw [this]
  · rintro (⟨c, hcmem, b, hb, rfl⟩ | ⟨c, hcmem, b, hb, rfl⟩)
    · have hlab : band_label b ∈ collect_unique_band_labels tb eb :=
        (mem_collect_unique_band_labels tb eb _).mpr
          ⟨b, List.mem_append.mpr (Or.inl hb), rfl⟩
      rcases flatMapE_ok_all h _ hcmem with ⟨ws, hfw⟩
      have hfw' : flatMapE (fun label =>
          appendE (optVariant tb label "Trade" (colourSku sku codes c) uw (some c))
            (optVariant eb label "End Customer" (colourSku sku codes c) uw (some c)))
          (collect_unique_band_labels tb eb) = .ok ws := hfw
      rcases flatMapE_ok_all hfw' _ hlab with ⟨ys, hfy⟩
      rcases appendE_ok hfy with ⟨y1, y2, h1, h2, rfl⟩
      rcases find?_label_exists hb rfl with ⟨b', hfind, hl'⟩
      rcases optVariant_find_ok h1 hfind with ⟨v, hbuild, rfl⟩
      refine ⟨v, ?_, tupleOf_build_some (hc c hcmem) hbuild⟩
      refine (flatMapE_mem h v).mpr ⟨c, hcmem, ws, hfw, ?_⟩
      exact (flatMapE_mem hfw' v).mpr ⟨band_label b, hlab, [v] ++ y2, hfy,
        List.mem_append.mpr (Or.inl (List.mem_singleton.mpr rfl))⟩
    · have hlab : band_label b ∈ collect_unique_band_labels tb eb :=
        (mem_collect_unique_band_labels tb eb _).mpr
          ⟨b, List.mem_append.mpr (Or.inr hb), rfl⟩
      rcases flatMapE_ok_all h _ hcmem with ⟨ws, hfw⟩
      have hfw' : flatMapE (fun label =>
          appendE (optVariant tb label "Trade" (colourSku sku codes c) uw (some c))
            (optVariant eb label "End Customer" (colourSku sku codes c) uw (some c)))
          (collect_unique_band_labels tb eb) = .ok ws := hfw
      rcases flatMapE_ok_all hfw' _ hlab with ⟨ys, hfy⟩
      rcases appendE_ok hfy with ⟨y1, y2, h1, h2, rfl⟩
      rcases find?_label_exists hb rfl with ⟨b', hfind, hl'⟩
      rcases optVariant_find_ok h2 hfind with ⟨v, hbuild, rfl⟩
      refine ⟨v, ?_, tupleOf_build_some (hc c hcmem) hbuild⟩
      refine (flatMapE_mem h v).mpr ⟨c, hcmem, ws, hfw, ?_⟩
      exact (flatMapE_mem hfw' v).mpr ⟨band_label b, hlab, y1 ++ [v], hfy,
        List.mem_append.mpr (Or.inr (List.mem_singleton.mpr rfl))⟩

/-- C2 counterexample: an empty-string colour entry (reachable from a
product_colours value such as Red,,Blue) makes the colour list
non-empty, yet the emitted variant drops the colour component entirely,
because the empty colour is falsy inside build_variant_for_band.  With
one trade band 1-10 and the colour list holding only the empty string,
the claim requires the returned tuple set to contain the triple of
empty colour, label and Trade, but the code produces the colourless
pair instead. -/
theorem build_variants_empty_colour_counterexample :
    Except.map variantTuples
        (build_variants [⟨.int 1, .int 10, .int 5⟩] [] "SKU" 0 [""] []) =
      .ok [.two "1-10" "Trade"] ∧
    Except.map variantTuples
        (build_variants [⟨.int 1, .int 10, .int 5⟩] [] "SKU" 0 [""] []) ≠
      .ok [.three "" "1-10" "Trade"] :=
  ⟨by decide, by decide⟩

/-- C2 amended: whenever build_variants returns a list (no band price
raises in format_price): with no colours, the distinct option tuples of
the synthesized variants are exactly the label-customer-type pairs over
the union of the input bands; with a non-empty colour list whose
entries are all non-empty strings, they are exactly the
colour-label-type triples.  An empty-string colour entry instead falls
back to the colourless pair shape, as the counterexample shows, and at
a non-formatting price the function raises and returns no variants. -/
theorem build_variants_label_tuples (tb eb : List Band) (sku : String) (uw : Int)
    (colours : List String) (codes : List (String × String)) :
    (colours = [] →
      ∀ vs, build_variants tb eb sku uw colours codes = .ok vs →
        ∀ t, t ∈ variantTuples vs ↔
          (∃ b ∈ tb, t = .two (band_label b) "Trade") ∨
          (∃ b ∈ eb, t = .two (band_label b) "End Customer")) ∧
    (colours ≠ [] → (∀ c ∈ colours, c ≠ "") →
      ∀ vs, build_variants tb eb sku uw colours codes = .ok vs →
        ∀ t, t ∈ variantTuples vs ↔
          (∃ c ∈ colours, ∃ b ∈ tb, t = .three c (band_label b) "Trade") ∨
          (∃ c ∈ colours, ∃ b ∈ eb, t = .three c (band_label b) "End Customer")) := by
  constructor
  · rintro rfl vs h t
    exact mem_variantTuples_no_colour tb eb sku uw codes h t
  · intro hne hc vs h t
    exact mem_variantTuples_with_colours tb eb sku uw colours codes hne hc h t

/-- Witness for C2: the colour branch discharged at one trade band with
the single colour Red, whose returned list carries the Red triple. -/
theorem build_variants_label_tuples_witness :
    ∃ vs, build_variants [⟨.int 1, .int 10, .int 5⟩] [] "SKU" 0 ["Red"] [("Red", "r")] =
        .ok vs ∧
      VTuple.three "Red" "1-10" "Trade" ∈ variantTuples vs := by
  refine ⟨[⟨"5.00", "continue", true, 0, "g", "SKU/r", true, "Red", "1-10", some "Trade"⟩],
    by decide, ?_⟩
  exact ((build_variants_label_tuples [⟨.int 1, .int 10, .int 5⟩] [] "SKU" 0 ["Red"]
      [("Red", "r")]).2 (by decide) (by decide) _ (by decide) _).mpr
    (Or.inl ⟨"Red", List.mem_singleton.mpr rfl,
      ⟨.int 1, .int 10, .int 5⟩, List.mem_singleton.mpr rfl, by decide⟩)
